import Mathlib

/-!
Verification development for the `warmy` hot-reloading resource cache
(`src/src/lib.rs`, `src/src/load.rs`).

The state of `Storage`, the slot heap backing `Res<T>` handles, and the
`Synchronizer` are embedded as plain data; `HashMap`s become association
lists with replace-on-insert semantics, `Res<T>` handles become slot
identifiers into an explicit slot heap, Rust type identities become
natural-number tags, resource values and loader error values become
naturals, and `Instant`s become naturals.  Caller-supplied loaders and
reload implementations (`Load::load` / `Load::reload`) are external code;
they are modelled as pure oracle outcomes (their recursive storage calls
would appear as separate trace operations).

The `key` and `res` modules of the repository are not under `src/`; the
canonicalization function `prepare_key` is therefore modelled from the
spec (§3, §4.A), as marked on the definitions below.
-/

namespace Warmy

/-- Association-list lookup; models `HashMap::get`. -/
def lookupA {α β : Type} [DecidableEq α] : List (α × β) → α → Option β
  | [], _ => none
  | kv :: rest, k => if k = kv.1 then some kv.2 else lookupA rest k

/-- Association-list removal; models the effect of `HashMap::remove` on the map. -/
def removeA {α β : Type} [DecidableEq α] (m : List (α × β)) (k : α) : List (α × β) :=
  m.filter (fun kv => decide (kv.1 ≠ k))

/-- Association-list insertion with replacement; models `HashMap::insert`. -/
def insertA {α β : Type} [DecidableEq α] (m : List (α × β)) (k : α) (v : β) : List (α × β) :=
  (k, v) :: removeA m k

/-- Association-list membership; models `HashMap::contains_key`. -/
def containsA {α β : Type} [DecidableEq α] (m : List (α × β)) (k : α) : Bool :=
  (lookupA m k).isSome

/-- Erased resource key (`key::DepKey`, re-exported in src/src/lib.rs): either a
filesystem path or a logical name. -/
inductive DepKey where
  | path (p : String)
  | logical (s : String)
deriving DecidableEq

/-- Modelled from the spec: the `key` module is not under `src/`.  Spec §4.A:
a leading separator on a path key is tolerated (treated as present); this
strips it before resolution against the root. -/
def stripLead (p : String) : String :=
  match p.data with
  | '/' :: rest => String.mk rest
  | _ => p

/-- Modelled from the spec: resolution of a path key against the canonical
root (spec §3, §4.A): relative paths are resolved against the root and the
stored form is the root-resolved absolute path. -/
def preparePath (root p : String) : String :=
  root ++ "/" ++ stripLead p

/-- Modelled from the spec: `Key::prepare_key` (spec §4.A): path keys are
canonicalized against the root, logical-key canonicalization is the identity. -/
def DepKey.prepare (root : String) : DepKey → DepKey
  | .path p => .path (preparePath root p)
  | .logical s => .logical s

/-- Model of `ResMetaData` (src/src/load.rs 96-108) as the reload closure's
captures: the shared handle (a slot id), the key and the resource type tag.
The closure's body is `runReload` below. -/
structure ResMetaData where
  slot : Nat
  key : DepKey
  ty : Nat
deriving DecidableEq

/-- Model of `Storage` (src/src/load.rs 114-123): the canonicalized root, the
cache keyed on (DepKey, type) (`any_cache` keyed by `PrivateKey<T>`), the
dependency graph `dependency ↦ dependents`, and the metadata map keyed on
`DepKey` alone. -/
structure Storage where
  canonRoot : String
  cache : List ((DepKey × Nat) × Nat)
  deps : List (DepKey × List DepKey)
  metadata : List (DepKey × ResMetaData)
deriving DecidableEq

/-- Combined machine state: the storage, the slot heap backing `Res` handles,
and the `Synchronizer` state (src/src/load.rs 399-411): the dirty map
`DepKey ↦ instant` and `update_await_time_ms` (the debounce). -/
structure Machine where
  storage : Storage
  slots : List Nat
  dirties : List (DepKey × Nat)
  debounce : Nat
deriving DecidableEq

/-- Fresh store as built by `Store::new` (src/src/load.rs 507-533): empty
storage holding the canonicalized root, empty dirty set. -/
def Machine.init (root : String) (debounce : Nat) : Machine :=
  { storage := { canonRoot := root, cache := [], deps := [], metadata := [] },
    slots := [], dirties := [], debounce := debounce }

/-- Model of `StoreError` (src/src/load.rs 284-292); the source's spelling
`RootDoesDotExit` is kept. -/
inductive StoreError where
  | rootDoesDotExit (p : String)
  | alreadyRegisteredKey (k : DepKey)
deriving DecidableEq

/-- Model of `StoreErrorOr` (src/src/load.rs 310-316); loader error values are
naturals. -/
inductive StoreErrorOr where
  | storeError (e : StoreError)
  | resError (e : Nat)
deriving DecidableEq

/-- Error projection of an `Except` result. -/
def errOf {ε α : Type} : Except ε α → Option ε
  | .error e => some e
  | .ok _ => none

/-- Model of `Storage::inject` (src/src/load.rs 144-199).  `key` is `T::Key`
already converted to its `DepKey` (the source's `key.clone().into()`).  If the
metadata map already holds the DepKey — regardless of type — the inject fails
with `AlreadyRegisteredKey`; otherwise the resource is wrapped in a fresh slot,
the metadata is recorded under the DepKey, each declared dependency is prepared
against the root and the new DepKey appended to its dependents (line 184-190),
and the handle is cached under (DepKey, type). -/
def inject (st : Machine) (ty : Nat) (key : DepKey) (resource : Nat)
    (deps : List DepKey) : Except StoreError (Nat × Machine) :=
  let depKey := key
  if containsA st.storage.metadata depKey then
    .error (.alreadyRegisteredKey depKey)
  else
    let slot := st.slots.length
    let md : ResMetaData := { slot := slot, key := key, ty := ty }
    let depsMap := deps.foldl (fun m d =>
      let dk := d.prepare st.storage.canonRoot
      insertA m dk ((lookupA m dk).getD [] ++ [depKey])) st.storage.deps
    .ok (slot,
      { st with
          storage :=
            { st.storage with
                metadata := insertA st.storage.metadata depKey md
                deps := depsMap
                cache := insertA st.storage.cache (depKey, ty) slot }
          slots := st.slots ++ [resource] })

/-- Model of `Storage::get_by` (src/src/load.rs 213-239); `Storage::get`
(src/src/load.rs 204-209) is `get_by` at the default method and is covered by
the same definition.  The incoming key is prepared against the root, the cache
is consulted at (prepared DepKey, type); on a hit the cached handle is returned
with the machine untouched; on a miss the loader oracle outcome `loadRes`
decides: a loader error is surfaced as `ResError`, a loaded value is injected
under the prepared key. -/
def getBy (st : Machine) (ty : Nat) (key : DepKey)
    (loadRes : Except Nat (Nat × List DepKey)) : Except StoreErrorOr (Nat × Machine) :=
  let key1 := key.prepare st.storage.canonRoot
  match lookupA st.storage.cache (key1, ty) with
  | some slot => .ok (slot, st)
  | none =>
    match loadRes with
    | .error e => .error (.resError e)
    | .ok vd =>
      match inject st ty key1 vd.1 vd.2 with
      | .error e => .error (.storeError e)
      | .ok r => .ok r

/-- Model of `Storage::get_proxied` (src/src/load.rs 245-259) and
`Storage::get_proxied_by` (src/src/load.rs 264-279): on any error from the
underlying get — either arm — the proxy value is injected with no dependencies
under the source's `key.clone().into()`: the UNPREPARED key, exactly as on
line 258/278. -/
def getProxied (st : Machine) (ty : Nat) (key : DepKey)
    (loadRes : Except Nat (Nat × List DepKey)) (proxy : Nat) :
    Except StoreError (Nat × Machine) :=
  match getBy st ty key loadRes with
  | .ok r => .ok r
  | .error _ => inject st ty key proxy []

/-- Bit value modelling `notify::op::CHMOD`; only disjointness from `WRITE`
matters. -/
def CHMOD : Nat := 1

/-- Bit value modelling `notify::op::WRITE`; only its nonemptiness and
disjointness from `CHMOD` matter. -/
def WRITE : Nat := 16

/-- Model of `notify::RawEvent`: an optional path and an op result (`none`
models `op: Err(..)`). -/
structure RawEvent where
  path : Option String
  op : Option Nat
deriving DecidableEq

/-- Model of `Synchronizer::dequeue_fs_events` (src/src/load.rs 429-448).
Each drained event is paired with the instant `Instant::now()` returned while
it was processed.  The guard is the source's `op | WRITE != Op::empty()` — a
bitwise OR, kept verbatim.  Matching events whose path is a registered
metadata key overwrite the dirty instant for that path. -/
def dequeueOne (m : Machine) (ev : RawEvent × Nat) : Machine :=
  match ev.1.path, ev.1.op with
  | some p, some op =>
    if op ||| WRITE ≠ 0 then
      let depKey := DepKey.path p
      if containsA m.storage.metadata depKey then
        { m with dirties := insertA m.dirties depKey ev.2 }
      else m
    else m
  | _, _ => m

/-- The drain loop of `dequeue_fs_events` over all currently available
events. -/
def dequeueFsEvents (st : Machine) (events : List (RawEvent × Nat)) : Machine :=
  events.foldl dequeueOne st

/-- Model of the reload closure built in `Storage::inject`
(src/src/load.rs 167-178): `Load::reload` is the oracle `env` applied to the
captured key and type tag; on success the handle's slot is overwritten in
place, on failure the slots are untouched and the failure is reported
(`false`). -/
def runReload (sl : List Nat) (env : DepKey → Nat → Option Nat)
    (md : ResMetaData) : List Nat × Bool :=
  match env md.key md.ty with
  | some v => (sl.set md.slot v, true)
  | none => (sl, false)

/-- Model of the dependents loop of `Synchronizer::reload_dirties`
(src/src/load.rs 464-474): each dependent's metadata is removed, its reload
closure invoked with the result discarded, and the metadata reinserted.  The
log records each closure invocation as (metadata key, success). -/
def reloadDeps (env : DepKey → Nat → Option Nat) :
    List (DepKey × ResMetaData) → List Nat → List DepKey →
      List (DepKey × ResMetaData) × List Nat × List (DepKey × Bool)
  | meta, sl, [] => (meta, sl, [])
  | meta, sl, dep :: rest =>
    match lookupA meta dep with
    | none => reloadDeps env meta sl rest
    | some obsMd =>
      let r := runReload sl env obsMd
      let meta1 := insertA (removeA meta dep) dep obsMd
      let out := reloadDeps env meta1 r.1 rest
      (out.1, out.2.1, (dep, r.2) :: out.2.2)

/-- Model of the processing of one elapsed dirty entry in
`Synchronizer::reload_dirties` (src/src/load.rs 460-478): the metadata is
temporarily removed, the reload closure invoked; on success each dependent's
closure is invoked as well (one level, errors swallowed); finally the metadata
is reinserted unchanged. -/
def reloadOne (env : DepKey → Nat → Option Nat) (stor : Storage) (sl : List Nat)
    (depKey : DepKey) : Storage × List Nat × List (DepKey × Bool) :=
  match lookupA stor.metadata depKey with
  | none => (stor, sl, [])
  | some md =>
    let meta1 := removeA stor.metadata depKey
    let r := runReload sl env md
    if r.2 then
      let depList := (lookupA stor.deps depKey).getD []
      let out := reloadDeps env meta1 r.1 depList
      ({ stor with metadata := insertA out.1 depKey md }, out.2.1,
        (depKey, true) :: out.2.2)
    else
      ({ stor with metadata := insertA meta1 depKey md }, r.1, [(depKey, false)])

/-- Model of the `retain` pass of `Synchronizer::reload_dirties`
(src/src/load.rs 451-485): entries past the debounce are processed and
dropped, entries within the debounce are retained; `now - instant` is
`Instant::duration_since` (saturating, as naturals). -/
def reloadPass (env : DepKey → Nat → Option Nat) (debounce now : Nat) :
    Storage → List Nat → List (DepKey × Nat) →
      Storage × List Nat × List (DepKey × Nat) × List (DepKey × Bool)
  | stor, sl, [] => (stor, sl, [], [])
  | stor, sl, entry :: rest =>
    if now - entry.2 ≥ debounce then
      let r1 := reloadOne env stor sl entry.1
      let out := reloadPass env debounce now r1.1 r1.2.1 rest
      (out.1, out.2.1, out.2.2.1, r1.2.2 ++ out.2.2.2)
    else
      let out := reloadPass env debounce now stor sl rest
      (out.1, out.2.1, entry :: out.2.2.1, out.2.2.2)

/-- Model of `Synchronizer::reload_dirties` (src/src/load.rs 451-485) on the
whole machine; the second component is the ordered log of reload-closure
invocations (metadata key, success). -/
def reloadDirties (st : Machine) (env : DepKey → Nat → Option Nat) (now : Nat) :
    Machine × List (DepKey × Bool) :=
  let r := reloadPass env st.debounce now st.storage st.slots st.dirties
  ({ st with storage := r.1, slots := r.2.1, dirties := r.2.2.1 }, r.2.2.2)

/-- Model of `Synchronizer::sync` (src/src/load.rs 488-492), also
`Store::sync` (src/src/load.rs 536-538): dequeue filesystem events, then
reload dirty entries. -/
def sync (st : Machine) (events : List (RawEvent × Nat))
    (env : DepKey → Nat → Option Nat) (now : Nat) : Machine × List (DepKey × Bool) :=
  reloadDirties (dequeueFsEvents st events) env now

/-- One public API call: `get`/`get_by` with its loader oracle outcome,
`get_proxied`/`get_proxied_by` with loader outcome and proxy value, or
`Store::sync` with its drained events, reload oracle and instant. -/
inductive Op where
  | get (ty : Nat) (key : DepKey) (loadRes : Except Nat (Nat × List DepKey))
  | getP (ty : Nat) (key : DepKey) (loadRes : Except Nat (Nat × List DepKey)) (proxy : Nat)
  | doSync (events : List (RawEvent × Nat)) (env : DepKey → Nat → Option Nat) (now : Nat)

/-- Observation of a call that handed a handle to the caller: the canonical
(DepKey, type) pair of the request, the slot of the returned handle, and — for
`get`/`get_by` — whether the call was a cache hit. -/
inductive Obs where
  | got (pair : DepKey × Nat) (slot : Nat) (hit : Bool)
  | prox (pair : DepKey × Nat) (slot : Nat)
deriving DecidableEq

/-- One step of the public API.  Errors leave the machine unchanged: in the
source both error paths return before any mutation, loaders being modelled as
pure. -/
def step (st : Machine) (op : Op) : Machine × List Obs :=
  match op with
  | .get ty key loadRes =>
    let pair := (key.prepare st.storage.canonRoot, ty)
    let hit := containsA st.storage.cache pair
    match getBy st ty key loadRes with
    | .ok r => (r.2, [.got pair r.1 hit])
    | .error _ => (st, [])
  | .getP ty key loadRes proxy =>
    let pair := (key.prepare st.storage.canonRoot, ty)
    match getProxied st ty key loadRes proxy with
    | .ok r => (r.2, [.prox pair r.1])
    | .error _ => (st, [])
  | .doSync events env now => ((sync st events env now).1, [])

/-- Run a sequence of API calls from a state, accumulating observations. -/
def run (st : Machine) : List Op → Machine × List Obs
  | [] => (st, [])
  | op :: ops =>
    let s1 := step st op
    let s2 := run s1.1 ops
    (s2.1, s1.2 ++ s2.2)

/-- A burst of write events for a single path, at the given instants. -/
def burst (p : String) (ts : List Nat) : List (RawEvent × Nat) :=
  ts.map (fun t => ({ path := some p, op := some WRITE }, t))

/-- Cache-to-metadata coherence: every cached (DepKey, type) pair has a
metadata entry under the same DepKey (spec §3 invariant 2, weak direction). -/
def CacheMeta (st : Machine) : Prop :=
  ∀ k ty, (lookupA st.storage.cache (k, ty)).isSome = true →
    (lookupA st.storage.metadata k).isSome = true

/-- Every handle slot a `get`/`get_by` call returned for a pair is the slot
currently cached at that pair. -/
def LogOk (st : Machine) (log : List Obs) : Prop :=
  ∀ pair s hit, Obs.got pair s hit ∈ log → lookupA st.storage.cache pair = some s

theorem lookupA_removeA {α β : Type} [DecidableEq α] (m : List (α × β)) (k k' : α) :
    lookupA (removeA m k) k' = if k' = k then none else lookupA m k' := by
  induction m with
  | nil => simp [removeA, lookupA]
  | cons kv rest ih =>
    by_cases h1 : kv.1 = k
    · rw [show removeA (kv :: rest) k = removeA rest k by
        simp [removeA, List.filter_cons, h1]]
      rw [ih]
      by_cases h2 : k' = k
      · simp [h2]
      · have h3 : ¬ k' = kv.1 := fun hh => h2 (hh.trans h1)
        simp [h2, lookupA, h3]
    · rw [show removeA (kv :: rest) k = kv :: removeA rest k by
        simp [removeA, List.filter_cons, h1]]
      by_cases h2 : k' = kv.1
      · have h3 : ¬ k' = k := fun hh => h1 (h2.symm.trans hh)
        simp [lookupA, h2, h3, h1]
      · simp [lookupA, h2, ih]

theorem lookupA_insertA {α β : Type} [DecidableEq α] (m : List (α × β)) (k k' : α) (v : β) :
    lookupA (insertA m k v) k' = if k' = k then some v else lookupA m k' := by
  unfold insertA
  by_cases h : k' = k <;> simp [lookupA, h, lookupA_removeA]

theorem lookupA_insertA_removeA {α β : Type} [DecidableEq α] (m : List (α × β))
    (k k' : α) (v : β) (h : lookupA m k = some v) :
    lookupA (insertA (removeA m k) k v) k' = lookupA m k' := by
  rw [lookupA_insertA]
  by_cases h2 : k' = k
  · simp [h2, h.symm]
  · simp [h2, lookupA_removeA]

theorem dequeueOne_dirties (m : Machine) (ev : RawEvent × Nat) :
    ∃ d, dequeueOne m ev = { m with dirties := d } := by
  unfold dequeueOne
  rcases ev with ⟨⟨p, o⟩, t⟩
  rcases p with _ | p <;> rcases o with _ | o
  · exact ⟨m.dirties, rfl⟩
  · exact ⟨m.dirties, rfl⟩
  · exact ⟨m.dirties, rfl⟩
  · by_cases h1 : o ||| WRITE ≠ 0
    · by_cases h2 : containsA m.storage.metadata (DepKey.path p) = true
      · refine ⟨insertA m.dirties (DepKey.path p) t, ?_⟩
        show (if o ||| WRITE ≠ 0 then
            if containsA m.storage.metadata (DepKey.path p) = true then
              { m with dirties := insertA m.dirties (DepKey.path p) t } else m
          else m) = _
        rw [if_pos h1, if_pos h2]
      · refine ⟨m.dirties, ?_⟩
        show (if o ||| WRITE ≠ 0 then
            if containsA m.storage.metadata (DepKey.path p) = true then
              { m with dirties := insertA m.dirties (DepKey.path p) t } else m
          else m) = _
        rw [if_pos h1, if_neg h2]
    · refine ⟨m.dirties, ?_⟩
      show (if o ||| WRITE ≠ 0 then
          if containsA m.storage.metadata (DepKey.path p) = true then
            { m with dirties := insertA m.dirties (DepKey.path p) t } else m
        else m) = _
      rw [if_neg h1]

theorem dequeueFsEvents_storage (st : Machine) (events : List (RawEvent × Nat)) :
    (dequeueFsEvents st events).storage = st.storage ∧
    (dequeueFsEvents st events).slots = st.slots ∧
    (dequeueFsEvents st events).debounce = st.debounce := by
  induction events generalizing st with
  | nil => exact ⟨rfl, rfl, rfl⟩
  | cons ev rest ih =>
    have hstep : dequeueFsEvents st (ev :: rest) = dequeueFsEvents (dequeueOne st ev) rest :=
      rfl
    obtain ⟨d, hd⟩ := dequeueOne_dirties st ev
    rw [hstep, hd]
    obtain ⟨h1, h2, h3⟩ := ih { st with dirties := d }
    exact ⟨h1, h2, h3⟩

theorem reloadDeps_metadata (env : DepKey → Nat → Option Nat)
    (meta : List (DepKey × ResMetaData)) (sl : List Nat) (l : List DepKey) (k : DepKey) :
    lookupA (reloadDeps env meta sl l).1 k = lookupA meta k := by
  induction l generalizing meta sl with
  | nil => rfl
  | cons dep rest ih =>
    show lookupA (match lookupA meta dep with
      | none => reloadDeps env meta sl rest
      | some obsMd => _).1 k = _
    rcases hm : lookupA meta dep with _ | obsMd
    · exact ih meta sl
    · simp only
      rw [ih, lookupA_insertA_removeA meta dep k obsMd hm]

theorem reloadOne_shape (env : DepKey → Nat → Option Nat) (stor : Storage)
    (sl : List Nat) (depKey : DepKey) :
    (reloadOne env stor sl depKey).1.cache = stor.cache ∧
    (reloadOne env stor sl depKey).1.deps = stor.deps ∧
    (reloadOne env stor sl depKey).1.canonRoot = stor.canonRoot ∧
    ∀ k, lookupA (reloadOne env stor sl depKey).1.metadata k = lookupA stor.metadata k := by
  unfold reloadOne
  rcases hm : lookupA stor.metadata depKey with _ | md
  · exact ⟨rfl, rfl, rfl, fun _ => rfl⟩
  · simp only
    split
    · refine ⟨rfl, rfl, rfl, fun k => ?_⟩
      show lookupA (insertA (reloadDeps env (removeA stor.metadata depKey) _ _).1 depKey md) k = _
      rw [lookupA_insertA]
      by_cases hk : k = depKey
      · simp [hk, hm.symm]
      · rw [if_neg hk, reloadDeps_metadata, lookupA_removeA, if_neg hk]
    · refine ⟨rfl, rfl, rfl, fun k => ?_⟩
      show lookupA (insertA (removeA stor.metadata depKey) depKey md) k = _
      rw [lookupA_insertA_removeA _ _ _ _ hm]

theorem reloadPass_shape (env : DepKey → Nat → Option Nat) (debounce now : Nat)
    (stor : Storage) (sl : List Nat) (l : List (DepKey × Nat)) :
    (reloadPass env debounce now stor sl l).1.cache = stor.cache ∧
    (reloadPass env debounce now stor sl l).1.deps = stor.deps ∧
    (reloadPass env debounce now stor sl l).1.canonRoot = stor.canonRoot ∧
    ∀ k, lookupA (reloadPass env debounce now stor sl l).1.metadata k =
      lookupA stor.metadata k := by
  induction l generalizing stor sl with
  | nil => exact ⟨rfl, rfl, rfl, fun _ => rfl⟩
  | cons entry rest ih =>
    simp only [reloadPass]
    split
    · obtain ⟨hc, hd, hr, hmeta⟩ :=
        ih (reloadOne env stor sl entry.1).1 (reloadOne env stor sl entry.1).2.1
      obtain ⟨hc1, hd1, hr1, hmeta1⟩ := reloadOne_shape env stor sl entry.1
      exact ⟨hc.trans hc1, hd.trans hd1, hr.trans hr1,
        fun k => (hmeta k).trans (hmeta1 k)⟩
    · exact ih stor sl

theorem sync_shape (st : Machine) (events : List (RawEvent × Nat))
    (env : DepKey → Nat → Option Nat) (now : Nat) :
    (sync st events env now).1.storage.cache = st.storage.cache ∧
    (sync st events env now).1.storage.deps = st.storage.deps ∧
    (sync st events env now).1.storage.canonRoot = st.storage.canonRoot ∧
    (sync st events env now).1.debounce = st.debounce ∧
    ∀ k, lookupA (sync st events env now).1.storage.metadata k =
      lookupA st.storage.metadata k := by
  obtain ⟨hs, _, hdb⟩ := dequeueFsEvents_storage st events
  have e1 : (sync st events env now).1.storage =
      (reloadPass env (dequeueFsEvents st events).debounce now
        (dequeueFsEvents st events).storage (dequeueFsEvents st events).slots
        (dequeueFsEvents st events).dirties).1 := rfl
  have e2 : (sync st events env now).1.debounce = (dequeueFsEvents st events).debounce := rfl
  obtain ⟨hc, hd, hr, hmeta⟩ := reloadPass_shape env (dequeueFsEvents st events).debounce now
    (dequeueFsEvents st events).storage (dequeueFsEvents st events).slots
    (dequeueFsEvents st events).dirties
  refine ⟨?_, ?_, ?_, e2.trans hdb, ?_⟩
  · rw [e1, hc, hs]
  · rw [e1, hd, hs]
  · rw [e1, hr, hs]
  · intro k; rw [e1, hmeta k, hs]

theorem reloadPass_retain (env : DepKey → Nat → Option Nat) (debounce now : Nat)
    (stor : Storage) (sl : List Nat) (l : List (DepKey × Nat))
    (h : ∀ e ∈ l, now - e.2 < debounce) :
    reloadPass env debounce now stor sl l = (stor, sl, l, []) := by
  induction l with
  | nil => rfl
  | cons entry rest ih =>
    have h1 : ¬ now - entry.2 ≥ debounce := by
      have := h entry (List.mem_cons_self _ _)
      omega
    show (if now - entry.2 ≥ debounce then _ else _) = _
    rw [if_neg h1, ih (fun e he => h e (List.mem_cons_of_mem _ he))]

theorem getBy_hit (st : Machine) (ty : Nat) (key : DepKey)
    (loadRes : Except Nat (Nat × List DepKey)) (slot : Nat)
    (h : lookupA st.storage.cache (key.prepare st.storage.canonRoot, ty) = some slot) :
    getBy st ty key loadRes = .ok (slot, st) := by
  simp only [getBy, h]

theorem inject_ok_shape (st : Machine) (ty : Nat) (key : DepKey) (v : Nat)
    (ds : List DepKey) (s : Nat) (st' : Machine)
    (h : inject st ty key v ds = .ok (s, st')) :
    containsA st.storage.metadata key = false ∧
    s = st.slots.length ∧
    st'.storage.cache = insertA st.storage.cache (key, ty) s ∧
    st'.storage.metadata = insertA st.storage.metadata key ⟨s, key, ty⟩ := by
  simp only [inject] at h
  split at h
  · exact absurd h (by simp)
  · next hc =>
    injection h with h
    injection h with h1 h2
    subst h1
    subst h2
    exact ⟨by simpa using hc, rfl, rfl, rfl⟩

theorem getBy_ok_cases (st : Machine) (ty : Nat) (key : DepKey)
    (lr : Except Nat (Nat × List DepKey)) (s : Nat) (st' : Machine)
    (h : getBy st ty key lr = .ok (s, st')) :
    (lookupA st.storage.cache (key.prepare st.storage.canonRoot, ty) = some s ∧ st' = st) ∨
    (∃ vd, lr = .ok vd ∧
      inject st ty (key.prepare st.storage.canonRoot) vd.1 vd.2 = .ok (s, st')) := by
  simp only [getBy] at h
  split at h
  · next slot hl =>
    left
    injection h with h
    injection h with h1 h2
    exact ⟨h1 ▸ hl, h2.symm⟩
  · split at h
    · exact absurd h (by simp)
    · next vd =>
      split at h
      · exact absurd h (by simp)
      · next r hinj =>
        right
        injection h with h
        exact ⟨vd, rfl, h ▸ hinj⟩

theorem getProxied_ok_cases (st : Machine) (ty : Nat) (key : DepKey)
    (lr : Except Nat (Nat × List DepKey)) (proxy : Nat) (s : Nat) (st' : Machine)
    (h : getProxied st ty key lr proxy = .ok (s, st')) :
    getBy st ty key lr = .ok (s, st') ∨
    inject st ty key proxy [] = .ok (s, st') := by
  simp only [getProxied] at h
  split at h
  · next r hg =>
    left
    injection h with h
    exact h ▸ hg
  · right
    exact h

theorem inject_cache_persist (st : Machine) (ty : Nat) (key : DepKey) (v : Nat)
    (ds : List DepKey) (s : Nat) (st' : Machine)
    (hcm : CacheMeta st) (h : inject st ty key v ds = .ok (s, st'))
    (pr : DepKey × Nat) (s0 : Nat) (hp : lookupA st.storage.cache pr = some s0) :
    lookupA st'.storage.cache pr = some s0 := by
  obtain ⟨hfree, -, hcache, -⟩ := inject_ok_shape st ty key v ds s st' h
  rw [hcache, lookupA_insertA]
  have hne : ¬ pr = (key, ty) := by
    rintro rfl
    have hsome := hcm key ty (by rw [hp]; rfl)
    rw [containsA, hsome] at hfree
    exact absurd hfree (by simp)
  rw [if_neg hne]
  exact hp

theorem inject_cacheMeta (st : Machine) (ty : Nat) (key : DepKey) (v : Nat)
    (ds : List DepKey) (s : Nat) (st' : Machine)
    (hcm : CacheMeta st) (h : inject st ty key v ds = .ok (s, st')) :
    CacheMeta st' := by
  obtain ⟨-, -, hcache, hmeta⟩ := inject_ok_shape st ty key v ds s st' h
  intro k ty' hk
  rw [hcache, lookupA_insertA] at hk
  rw [hmeta, lookupA_insertA]
  by_cases hkk : k = key
  · rw [if_pos hkk]
    rfl
  · rw [if_neg hkk]
    rw [if_neg (fun hh : (k, ty') = (key, ty) => hkk (congrArg Prod.fst hh))] at hk
    exact hcm k ty' hk

theorem step_persist (st : Machine) (op : Op) (hcm : CacheMeta st)
    (pr : DepKey × Nat) (s0 : Nat) (hp : lookupA st.storage.cache pr = some s0) :
    lookupA (step st op).1.storage.cache pr = some s0 := by
  rcases op with ⟨ty, key, lr⟩ | ⟨ty, key, lr, proxy⟩ | ⟨events, env, now⟩
  · rcases hg : getBy st ty key lr with e | ⟨s, st'⟩
    · simp only [step, hg]
      exact hp
    · simp only [step, hg]
      rcases getBy_ok_cases st ty key lr s st' hg with ⟨-, rfl⟩ | ⟨vd, -, hinj⟩
      · exact hp
      · exact inject_cache_persist st ty _ vd.1 vd.2 s st' hcm hinj pr s0 hp
  · rcases hg : getProxied st ty key lr proxy with e | ⟨s, st'⟩
    · simp only [step, hg]
      exact hp
    · simp only [step, hg]
      rcases getProxied_ok_cases st ty key lr proxy s st' hg with hby | hinj
      · rcases getBy_ok_cases st ty key lr s st' hby with ⟨-, rfl⟩ | ⟨vd, -, hinj⟩
        · exact hp
        · exact inject_cache_persist st ty _ vd.1 vd.2 s st' hcm hinj pr s0 hp
      · exact inject_cache_persist st ty key proxy [] s st' hcm hinj pr s0 hp
  · show lookupA (sync st events env now).1.storage.cache pr = some s0
    rw [(sync_shape st events env now).1]
    exact hp

theorem step_cacheMeta (st : Machine) (op : Op) (hcm : CacheMeta st) :
    CacheMeta (step st op).1 := by
  rcases op with ⟨ty, key, lr⟩ | ⟨ty, key, lr, proxy⟩ | ⟨events, env, now⟩
  · rcases hg : getBy st ty key lr with e | ⟨s, st'⟩
    · simp only [step, hg]
      exact hcm
    · simp only [step, hg]
      rcases getBy_ok_cases st ty key lr s st' hg with ⟨-, rfl⟩ | ⟨vd, -, hinj⟩
      · exact hcm
      · exact inject_cacheMeta st ty _ vd.1 vd.2 s st' hcm hinj
  · rcases hg : getProxied st ty key lr proxy with e | ⟨s, st'⟩
    · simp only [step, hg]
      exact hcm
    · simp only [step, hg]
      rcases getProxied_ok_cases st ty key lr proxy s st' hg with hby | hinj
      · rcases getBy_ok_cases st ty key lr s st' hby with ⟨-, rfl⟩ | ⟨vd, -, hinj⟩
        · exact hcm
        · exact inject_cacheMeta st ty _ vd.1 vd.2 s st' hcm hinj
      · exact inject_cacheMeta st ty key proxy [] s st' hcm hinj
  · intro k ty' hk
    have hc := (sync_shape st events env now).1
    have hm := (sync_shape st events env now).2.2.2.2 k
    show (lookupA (sync st events env now).1.storage.metadata k).isSome = true
    rw [hm]
    refine hcm k ty' ?_
    revert hk
    show (lookupA (sync st events env now).1.storage.cache (k, ty')).isSome = true → _
    rw [hc]
    exact id

theorem step_logOk (st : Machine) (op : Op) (log : List Obs)
    (hcm : CacheMeta st) (hl : LogOk st log) :
    LogOk (step st op).1 (log ++ (step st op).2) := by
  have hold : ∀ pair s hit, Obs.got pair s hit ∈ log →
      lookupA (step st op).1.storage.cache pair = some s :=
    fun pair s hit hm => step_persist st op hcm pair s (hl pair s hit hm)
  rcases op with ⟨ty, key, lr⟩ | ⟨ty, key, lr, proxy⟩ | ⟨events, env, now⟩
  · rcases hg : getBy st ty key lr with e | ⟨s, st'⟩
    · intro pair s hit hm
      simp only [step, hg] at hm ⊢
      rw [List.append_nil] at hm
      exact hl pair s hit hm
    · intro pair1 s1 hit1 hm
      have hstep := hold pair1 s1 hit1
      simp only [step, hg] at hm hstep ⊢
      rcases List.mem_append.1 hm with hm | hm
      · exact hstep hm
      · simp only [List.mem_singleton] at hm
        injection hm with e1 e2 e3
        rw [e1, e2]
        rcases getBy_ok_cases st ty key lr s st' hg with ⟨hlook, rfl⟩ | ⟨vd, -, hinj⟩
        · exact hlook
        · obtain ⟨-, -, hcache, -⟩ :=
            inject_ok_shape st ty _ vd.1 vd.2 s st' hinj
          rw [hcache, lookupA_insertA, if_pos rfl]
  · rcases hg : getProxied st ty key lr proxy with e | ⟨s, st'⟩
    · intro pair s hit hm
      simp only [step, hg] at hm ⊢
      rw [List.append_nil] at hm
      exact hl pair s hit hm
    · intro pair1 s1 hit1 hm
      have hstep := hold pair1 s1 hit1
      simp only [step, hg] at hm hstep ⊢
      rcases List.mem_append.1 hm with hm | hm
      · exact hstep hm
      · simp only [List.mem_singleton] at hm
        exact absurd hm (by simp)
  · intro pair s hit hm
    have hstep := hold pair s hit
    simp only [step] at hm hstep ⊢
    rw [List.append_nil] at hm
    exact hstep hm

theorem run_inv (ops : List Op) (st : Machine) (log : List Obs)
    (hcm : CacheMeta st) (hl : LogOk st log) :
    CacheMeta (run st ops).1 ∧ LogOk (run st ops).1 (log ++ (run st ops).2) := by
  induction ops generalizing st log with
  | nil =>
    simp only [run, List.append_nil]
    exact ⟨hcm, hl⟩
  | cons op rest ih =>
    have h1 := step_cacheMeta st op hcm
    have h2 := step_logOk st op log hcm hl
    have h3 := ih (step st op).1 (log ++ (step st op).2) h1 h2
    simp only [run]
    rw [← List.append_assoc]
    exact h3

/-- C1: claimed — during sync's dequeue phase an event marks its path dirty
exactly when its op includes the write classification and the path is a known
metadata key, and events whose op does not include write mark nothing dirty.
The code's guard `op | WRITE != Op::empty()` (src/src/load.rs 436) is a
bitwise OR with the nonempty WRITE flag and therefore true for every op: a
CHMOD-only event (no WRITE bit, witnessed by `CHMOD &&& WRITE = 0`) for the
registered path of a previously fetched resource is nevertheless recorded in
the dirty map with its instant. -/
theorem c1_nonwrite_event_marks_dirty :
    lookupA
      (dequeueFsEvents
        (run (Machine.init "/r" 50) [Op.get 0 (DepKey.path "/a") (.ok (5, []))]).1
        [({ path := some "/r/a", op := some CHMOD }, 123)]).dirties
      (DepKey.path "/r/a") = some 123 ∧
    CHMOD &&& WRITE = 0 := by decide

/-- C2 (counterexample): after a successful get of a type-0 resource under
FSKey "/a" with root "/r", a get of a type-1 resource under the same key is a
cache miss (the cache is keyed per type), reaches inject and fails with
`AlreadyRegisteredKey` — it does not succeed as the claim states, because the
metadata map (src/src/load.rs 122) is keyed by DepKey alone. -/
theorem c2_counterexample :
    errOf (getBy (run (Machine.init "/r" 50) [Op.get 0 (DepKey.path "/a") (.ok (5, []))]).1
        1 (DepKey.path "/a") (.ok (6, []))) =
      some (.storeError (.alreadyRegisteredKey (DepKey.path "/r/a"))) := by decide

/-- C2 (amended): the metadata map is keyed by DepKey alone
(src/src/load.rs 122, and the check on line 157), so after any successful
inject under a DepKey, a subsequent inject under the same DepKey fails with
`AlreadyRegisteredKey` for every resource type, the same one or a different
one: two entries with the same DepKey never coexist, regardless of type. -/
theorem c2_same_depkey_inject_collides (st : Machine) (ty1 ty2 : Nat) (key : DepKey)
    (v1 v2 : Nat) (ds1 ds2 : List DepKey) (s1 : Nat) (st1 : Machine)
    (h : inject st ty1 key v1 ds1 = .ok (s1, st1)) :
    inject st1 ty2 key v2 ds2 = .error (.alreadyRegisteredKey key) := by
  obtain ⟨-, -, -, hmeta⟩ := inject_ok_shape st ty1 key v1 ds1 s1 st1 h
  have hc : containsA st1.storage.metadata key = true := by
    rw [containsA, hmeta, lookupA_insertA, if_pos rfl]
    rfl
  simp [inject, hc]

/-- C2 (witness): concrete application of `c2_same_depkey_inject_collides`:
injecting a type-1 resource under the DepKey "/k" already holding a type-0
resource fails with `AlreadyRegisteredKey`. -/
theorem c2_witness :
    inject
      { storage :=
          { canonRoot := "/r", cache := [((DepKey.path "/k", 0), 0)],
            deps := [], metadata := [(DepKey.path "/k", ⟨0, DepKey.path "/k", 0⟩)] },
        slots := [5], dirties := [], debounce := 50 }
      1 (DepKey.path "/k") 6 [] =
      .error (.alreadyRegisteredKey (DepKey.path "/k")) :=
  c2_same_depkey_inject_collides (Machine.init "/r" 50) 0 1 (DepKey.path "/k")
    5 6 [] [] 0 _ (by rfl)

/-- C3: claimed — after a get_proxied fallback, a filesystem write event for
the key still triggers a reload which on success overwrites the placeholder in
the caller's handle.  In the code the fallback injects the proxy under the
UNPREPARED key (src/src/load.rs 258), here Path "/a", while watcher events
carry the canonical path under the root, here Path "/r/a", which is not a
metadata key: the sync triggers no reload closure, leaves the dirty set empty
and the placeholder slot value 7 untouched; a later successful load of the
same key allocates a fresh slot (slot 1) instead of overwriting the
placeholder (slot 0). -/
theorem c3_proxy_slot_never_rebound :
    (sync (run (Machine.init "/r" 50) [Op.getP 0 (DepKey.path "/a") (.error 0) 7]).1
      [({ path := some "/r/a", op := some WRITE }, 0)] (fun _ _ => some 99) 1000).2 = [] ∧
    (sync (run (Machine.init "/r" 50) [Op.getP 0 (DepKey.path "/a") (.error 0) 7]).1
      [({ path := some "/r/a", op := some WRITE }, 0)] (fun _ _ => some 99) 1000).1.dirties
      = [] ∧
    (sync (run (Machine.init "/r" 50) [Op.getP 0 (DepKey.path "/a") (.error 0) 7]).1
      [({ path := some "/r/a", op := some WRITE }, 0)] (fun _ _ => some 99) 1000).1.slots
      = [7] ∧
    (getBy
        (sync (run (Machine.init "/r" 50) [Op.getP 0 (DepKey.path "/a") (.error 0) 7]).1
          [({ path := some "/r/a", op := some WRITE }, 0)] (fun _ _ => some 99) 1000).1
        0 (DepKey.path "/a") (.ok (5, []))).toOption.map (fun r => (r.1, r.2.slots)) =
      some (1, [7, 5]) := by decide

/-- C4: claimed — at most one metadata entry and one cached handle per
(canonical DepKey, type) at every quiescent point.  After a get_proxied
fallback (proxy stored under the unprepared DepKey Path "/a") followed by a
successful get of the same key (stored under the prepared DepKey Path "/r/a"),
the cache holds two handles and the metadata two entries whose DepKeys
canonicalize to the same Path "/r/a", same type 0. -/
theorem c4_two_entries_one_canonical_pair :
    lookupA (run (Machine.init "/r" 50) [Op.getP 0 (DepKey.path "/a") (.error 0) 7,
        Op.get 0 (DepKey.path "/a") (.ok (5, []))]).1.storage.cache
      (DepKey.path "/a", 0) = some 0 ∧
    lookupA (run (Machine.init "/r" 50) [Op.getP 0 (DepKey.path "/a") (.error 0) 7,
        Op.get 0 (DepKey.path "/a") (.ok (5, []))]).1.storage.cache
      (DepKey.path "/r/a", 0) = some 1 ∧
    (DepKey.path "/a").prepare "/r" = DepKey.path "/r/a" ∧
    (lookupA (run (Machine.init "/r" 50) [Op.getP 0 (DepKey.path "/a") (.error 0) 7,
        Op.get 0 (DepKey.path "/a") (.ok (5, []))]).1.storage.metadata
      (DepKey.path "/a")).isSome = true ∧
    (lookupA (run (Machine.init "/r" 50) [Op.getP 0 (DepKey.path "/a") (.error 0) 7,
        Op.get 0 (DepKey.path "/a") (.ok (5, []))]).1.storage.metadata
      (DepKey.path "/r/a")).isSome = true := by decide

theorem reloadPass_single (env : DepKey → Nat → Option Nat) (db now : Nat)
    (stor : Storage) (sl : List Nat) (D : DepKey) (t0 : Nat)
    (h : now - t0 ≥ db) :
    reloadPass env db now stor sl [(D, t0)] =
      ((reloadOne env stor sl D).1, (reloadOne env stor sl D).2.1, [],
        (reloadOne env stor sl D).2.2) := by
  simp only [reloadPass]
  rw [if_pos h]
  rw [List.append_nil]

/-- C5 (counterexample): the trace get_proxied (loader fails; placeholder in
slot 0 under the unprepared key), get (loader succeeds; fresh slot 1 under the
prepared key), get (cache hit) produces a cache-hit `get` call that returns
slot 1 while the earlier get_proxied call returned slot 0 for the same
canonical (DepKey, type) pair — so a cache-hit call does not share its slot
with every previously returned handle for that pair, refuting the claim as
stated. -/
theorem c5_counterexample :
    (run (Machine.init "/r" 50)
      [Op.getP 0 (DepKey.path "/a") (.error 0) 7,
       Op.get 0 (DepKey.path "/a") (.ok (5, [])),
       Op.get 0 (DepKey.path "/a") (.ok (6, []))]).2 =
      [Obs.prox (DepKey.path "/r/a", 0) 0,
       Obs.got (DepKey.path "/r/a", 0) 1 false,
       Obs.got (DepKey.path "/r/a", 0) 1 true] ∧
    (0 : Nat) ≠ 1 := by decide

/-- C5 (amended): restricted to handles returned by `get`/`get_by` the claim
holds: (i) in every run from a fresh store, any two handles returned by
`get`/`get_by` calls for the same canonical (DepKey, type) pair occupy the
same slot — in particular a cache-hit call returns the slot of every handle
previously returned by `get`/`get_by` for that pair (handles produced by
get_proxied's fallback are cached under the unprepared key and may occupy a
different slot, as the counterexample shows); (ii) a `get_by` whose canonical
pair is cached returns the cached slot with the machine unchanged — no loader
runs and the dependency graph is untouched; (iii) reloads during sync
overwrite slots in place and never replace the cache containers. -/
theorem c5_cache_hit_purity_handle_stability :
    (∀ root db ops pair s1 h1 s2 h2,
       Obs.got pair s1 h1 ∈ (run (Machine.init root db) ops).2 →
       Obs.got pair s2 h2 ∈ (run (Machine.init root db) ops).2 → s1 = s2) ∧
    (∀ st ty key loadRes slot,
       lookupA st.storage.cache (key.prepare st.storage.canonRoot, ty) = some slot →
       getBy st ty key loadRes = .ok (slot, st)) ∧
    (∀ st events env now,
       (sync st events env now).1.storage.cache = st.storage.cache) := by
  refine ⟨?_, getBy_hit, fun st events env now => (sync_shape st events env now).1⟩
  intro root db ops pair s1 h1 s2 h2 m1 m2
  obtain ⟨-, hlog⟩ := run_inv ops (Machine.init root db) []
    (fun k ty h => by simp [Machine.init, lookupA] at h)
    (fun pair s hit h => absurd h (List.not_mem_nil _))
  have e1 := hlog pair s1 h1 (by simpa using m1)
  have e2 := hlog pair s2 h2 (by simpa using m2)
  rw [e1] at e2
  exact Option.some.inj e2

/-- C5 (witness): two `get` calls for the key "/a" (a miss then a hit) return
the same slot 0, by `c5_cache_hit_purity_handle_stability`. -/
theorem c5_witness :
    (Obs.got (DepKey.path "/r/a", 0) 0 false ∈
      (run (Machine.init "/r" 50) [Op.get 0 (DepKey.path "/a") (.ok (5, [])),
        Op.get 0 (DepKey.path "/a") (.ok (6, []))]).2) ∧
    (0 : Nat) = 0 :=
  ⟨by decide,
   c5_cache_hit_purity_handle_stability.1 "/r" 50
     [Op.get 0 (DepKey.path "/a") (.ok (5, [])), Op.get 0 (DepKey.path "/a") (.ok (6, []))]
     (DepKey.path "/r/a", 0) 0 false 0 true (by decide) (by decide)⟩

/-- C6: if R declared a dependency on D (so the dependents list of D is [R])
and only D is marked dirty, then in a sync past the debounce the reload log
is: D's closure invoked first and, exactly when D's reload succeeds, R's
closure invoked exactly once right after it in the same pass, with R's own
error swallowed (recorded in the log, not propagated); when D's reload fails
no dependent is invoked — matching src/src/load.rs 460-478. -/
theorem c6_dependency_propagation (st : Machine) (D R : DepKey) (t0 now : Nat)
    (env : DepKey → Nat → Option Nat) (mdD mdR : ResMetaData)
    (hdirt : st.dirties = [(D, t0)])
    (hmdD : lookupA st.storage.metadata D = some mdD)
    (hmdR : lookupA st.storage.metadata R = some mdR)
    (hne : ¬ R = D)
    (hdeps : lookupA st.storage.deps D = some [R])
    (helapsed : now - t0 ≥ st.debounce) :
    ((env mdD.key mdD.ty).isSome = true →
       (reloadDirties st env now).2 = [(D, true), (R, (env mdR.key mdR.ty).isSome)]) ∧
    (env mdD.key mdD.ty = none → (reloadDirties st env now).2 = [(D, false)]) := by
  have hpass : (reloadDirties st env now).2 = (reloadOne env st.storage st.slots D).2.2 := by
    unfold reloadDirties
    rw [hdirt, reloadPass_single env st.debounce now st.storage st.slots D t0 helapsed]
  constructor
  · intro hsome
    rcases hv : env mdD.key mdD.ty with _ | v
    · rw [hv] at hsome
      exact absurd hsome (by simp)
    · rw [hpass]
      rcases hv2 : env mdR.key mdR.ty with _ | v2 <;>
        simp [reloadOne, reloadDeps, runReload, hmdD, hmdR, hdeps, hv, hv2,
          lookupA_removeA, hne]
  · intro hnone
    rw [hpass]
    simp [reloadOne, runReload, hmdD, hnone]

/-- C6 (witness): concrete machine in which resource R (logical "r", slot 1)
depends on D (path "/r/d", slot 0), only D is dirty, the sync is past the
debounce and both reloads succeed: the reload log is [(D, true), (R, true)]. -/
theorem c6_witness :
    (reloadDirties
      { storage :=
          { canonRoot := "/r", cache := [],
            deps := [(DepKey.path "/r/d", [DepKey.logical "r"])],
            metadata := [(DepKey.path "/r/d", ⟨0, DepKey.path "/r/d", 0⟩),
              (DepKey.logical "r", ⟨1, DepKey.logical "r", 0⟩)] },
        slots := [10, 20], dirties := [(DepKey.path "/r/d", 0)], debounce := 50 }
      (fun _ _ => some 5) 100).2 =
      [(DepKey.path "/r/d", true), (DepKey.logical "r", true)] :=
  (c6_dependency_propagation _ (DepKey.path "/r/d") (DepKey.logical "r") 0 100
    (fun _ _ => some 5) ⟨0, DepKey.path "/r/d", 0⟩ ⟨1, DepKey.logical "r", 0⟩
    rfl (by decide) (by decide) (by decide) (by decide) (by decide)).1 (by decide)

/-- C7: when the reload closure of the only dirty resource fails during sync,
the failure is swallowed: the slot heap is unchanged (the handle keeps its
previous value), every metadata lookup is unchanged (the entry was reinserted,
so future reloads are still attempted), the dirty entry is removed, and the
log records the single failed invocation; `sync` itself returns no error — its
model has no error component at all. -/
theorem c7_reload_failure_swallowed (st : Machine) (D : DepKey) (t0 now : Nat)
    (env : DepKey → Nat → Option Nat) (md : ResMetaData)
    (hdirt : st.dirties = [(D, t0)])
    (hmd : lookupA st.storage.metadata D = some md)
    (helapsed : now - t0 ≥ st.debounce)
    (hfail : env md.key md.ty = none) :
    (reloadDirties st env now).1.slots = st.slots ∧
    (∀ k, lookupA (reloadDirties st env now).1.storage.metadata k =
      lookupA st.storage.metadata k) ∧
    (reloadDirties st env now).1.dirties = [] ∧
    (reloadDirties st env now).2 = [(D, false)] := by
  have hone : reloadOne env st.storage st.slots D =
      ({ st.storage with metadata := insertA (removeA st.storage.metadata D) D md },
        st.slots, [(D, false)]) := by
    simp [reloadOne, runReload, hmd, hfail]
  unfold reloadDirties
  rw [hdirt, reloadPass_single env st.debounce now st.storage st.slots D t0 helapsed, hone]
  exact ⟨rfl, fun k => lookupA_insertA_removeA st.storage.metadata D k md hmd, rfl, rfl⟩

/-- C7 (witness): concrete machine with one dirty resource whose reload
fails: slots, metadata lookups unchanged, dirty set emptied, log [(D, false)]. -/
theorem c7_witness :
    (reloadDirties
      { storage :=
          { canonRoot := "/r", cache := [((DepKey.path "/r/d", 0), 0)], deps := [],
            metadata := [(DepKey.path "/r/d", ⟨0, DepKey.path "/r/d", 0⟩)] },
        slots := [10], dirties := [(DepKey.path "/r/d", 0)], debounce := 50 }
      (fun _ _ => none) 100).1.slots = [10] ∧
    (∀ k, lookupA
      (reloadDirties
        { storage :=
            { canonRoot := "/r", cache := [((DepKey.path "/r/d", 0), 0)], deps := [],
              metadata := [(DepKey.path "/r/d", ⟨0, DepKey.path "/r/d", 0⟩)] },
          slots := [10], dirties := [(DepKey.path "/r/d", 0)], debounce := 50 }
        (fun _ _ => none) 100).1.storage.metadata k =
      lookupA [(DepKey.path "/r/d", (⟨0, DepKey.path "/r/d", 0⟩ : ResMetaData))] k) ∧
    (reloadDirties
      { storage :=
          { canonRoot := "/r", cache := [((DepKey.path "/r/d", 0), 0)], deps := [],
            metadata := [(DepKey.path "/r/d", ⟨0, DepKey.path "/r/d", 0⟩)] },
        slots := [10], dirties := [(DepKey.path "/r/d", 0)], debounce := 50 }
      (fun _ _ => none) 100).2 = [(DepKey.path "/r/d", false)] := by
  obtain ⟨h1, h2, h3, h4⟩ := c7_reload_failure_swallowed
    { storage :=
        { canonRoot := "/r", cache := [((DepKey.path "/r/d", 0), 0)], deps := [],
          metadata := [(DepKey.path "/r/d", ⟨0, DepKey.path "/r/d", 0⟩)] },
      slots := [10], dirties := [(DepKey.path "/r/d", 0)], debounce := 50 }
    (DepKey.path "/r/d") 0 100 (fun _ _ => none) ⟨0, DepKey.path "/r/d", 0⟩
    rfl (by decide) (by decide) rfl
  exact ⟨h1, h2, h4⟩

/-- C8: debounce semantics of the reload phase and the dequeue phase:
(i) a single dirty entry whose instant is less than debounce before `now` is
retained unchanged and triggers no reload — the whole machine is unchanged and
the log empty; (ii) a dirty entry at or beyond the threshold triggers a reload
of that resource (its invocation heads the log); (iii) the dirty instant a
burst of write events leaves behind is the instant of the latest write in the
burst — `dirty[path] = now` overwrites earlier instants, so the interval is
measured from the latest observed write. -/
theorem c8_debounce_threshold :
    (∀ st D t0 env now, st.dirties = [(D, t0)] →
       now - t0 < st.debounce → reloadDirties st env now = (st, [])) ∧
    (∀ st D t0 env now md, st.dirties = [(D, t0)] →
       now - t0 ≥ st.debounce → lookupA st.storage.metadata D = some md →
       ∃ b rest, (reloadDirties st env now).2 = (D, b) :: rest) ∧
    (∀ m p ts t, containsA m.storage.metadata (DepKey.path p) = true →
       lookupA (dequeueFsEvents m (burst p (ts ++ [t]))).dirties (DepKey.path p)
         = some t) := by
  refine ⟨?_, ?_, ?_⟩
  · intro st D t0 env now hdirt hlt
    unfold reloadDirties
    rw [hdirt, reloadPass_retain env st.debounce now st.storage st.slots [(D, t0)]
      (fun e he => by
        have h1 := List.mem_singleton.1 he
        subst h1
        exact hlt)]
    rw [← hdirt]
  · intro st D t0 env now md hdirt hge hmd
    unfold reloadDirties
    rw [hdirt, reloadPass_single env st.debounce now st.storage st.slots D t0 hge]
    rcases hv : env md.key md.ty with _ | v
    · exact ⟨false, [], by simp [reloadOne, runReload, hmd, hv]⟩
    · refine ⟨true, (reloadDeps env (removeA st.storage.metadata D)
        (st.slots.set md.slot v) ((lookupA st.storage.deps D).getD [])).2.2, ?_⟩
      simp [reloadOne, runReload, hmd, hv]
  · intro m p ts t hreg
    induction ts generalizing m with
    | nil =>
      have h1 : dequeueFsEvents m (burst p ([] ++ [t])) =
          dequeueOne m ({ path := some p, op := some WRITE }, t) := rfl
      rw [h1]
      have h2 : dequeueOne m ({ path := some p, op := some WRITE }, t) =
          { m with dirties := insertA m.dirties (DepKey.path p) t } := by
        show (if WRITE ||| WRITE ≠ 0 then
            if containsA m.storage.metadata (DepKey.path p) = true then
              { m with dirties := insertA m.dirties (DepKey.path p) t } else m
          else m) = _
        rw [if_pos (by decide), if_pos hreg]
      rw [h2]
      show lookupA (insertA m.dirties (DepKey.path p) t) (DepKey.path p) = some t
      rw [lookupA_insertA, if_pos rfl]
    | cons t0 rest ih =>
      have hstep : dequeueFsEvents m (burst p ((t0 :: rest) ++ [t])) =
          dequeueFsEvents (dequeueOne m ({ path := some p, op := some WRITE }, t0))
            (burst p (rest ++ [t])) := rfl
      rw [hstep]
      obtain ⟨d, hd⟩ := dequeueOne_dirties m ({ path := some p, op := some WRITE }, t0)
      rw [hd]
      exact ih { m with dirties := d } hreg

/-- C8 (witness): concrete instantiation of all three parts of
`c8_debounce_threshold`: a dirty entry 10 ms old with a 50 ms debounce is
retained without reloading; the same entry 100 ms old triggers a reload; a
burst of writes at instants 1, 2, 3 leaves dirty instant 3. -/
theorem c8_witness :
    (reloadDirties
      { storage :=
          { canonRoot := "/r", cache := [], deps := [],
            metadata := [(DepKey.path "/r/d", ⟨0, DepKey.path "/r/d", 0⟩)] },
        slots := [10], dirties := [(DepKey.path "/r/d", 0)], debounce := 50 }
      (fun _ _ => some 1) 10).2 = [] ∧
    (reloadDirties
      { storage :=
          { canonRoot := "/r", cache := [], deps := [],
            metadata := [(DepKey.path "/r/d", ⟨0, DepKey.path "/r/d", 0⟩)] },
        slots := [10], dirties := [(DepKey.path "/r/d", 0)], debounce := 50 }
      (fun _ _ => some 1) 10).1.dirties = [(DepKey.path "/r/d", 0)] ∧
    (∃ b rest, (reloadDirties
      { storage :=
          { canonRoot := "/r", cache := [], deps := [],
            metadata := [(DepKey.path "/r/d", ⟨0, DepKey.path "/r/d", 0⟩)] },
        slots := [10], dirties := [(DepKey.path "/r/d", 0)], debounce := 50 }
      (fun _ _ => some 1) 100).2 = (DepKey.path "/r/d", b) :: rest) ∧
    lookupA
      (dequeueFsEvents
        { storage :=
            { canonRoot := "/r", cache := [], deps := [],
              metadata := [(DepKey.path "/r/d", ⟨0, DepKey.path "/r/d", 0⟩)] },
          slots := [10], dirties := [], debounce := 50 }
        (burst "/r/d" ([1, 2] ++ [3]))).dirties (DepKey.path "/r/d") = some 3 := by
  have h1 := c8_debounce_threshold.1
    { storage :=
        { canonRoot := "/r", cache := [], deps := [],
          metadata := [(DepKey.path "/r/d", ⟨0, DepKey.path "/r/d", 0⟩)] },
      slots := [10], dirties := [(DepKey.path "/r/d", 0)], debounce := 50 }
    (DepKey.path "/r/d") 0 (fun _ _ => some 1) 10 rfl (by decide)
  refine ⟨?_, ?_, ?_, ?_⟩
  · rw [h1]
  · rw [h1]
  · exact c8_debounce_threshold.2.1 _ (DepKey.path "/r/d") 0 (fun _ _ => some 1) 100
      ⟨0, DepKey.path "/r/d", 0⟩ rfl (by decide) (by decide)
  · exact c8_debounce_threshold.2.2 _ "/r/d" [1, 2] 3 (by decide)

/-- C9 (counterexample): with debounce 50, a resource marked dirty at instant
0, a first sync at instant 10 (entry retained, no reload) and a second sync at
instant 60 with no events in between: the second call invokes the reload
closure — consecutive syncs with no new events are not free of reload
invocations when a retained entry's debounce elapses between the calls. -/
theorem c9_counterexample :
    (sync
      { storage :=
          { canonRoot := "/r", cache := [((DepKey.path "/r/a", 0), 0)], deps := [],
            metadata := [(DepKey.path "/r/a", ⟨0, DepKey.path "/r/a", 0⟩)] },
        slots := [1], dirties := [(DepKey.path "/r/a", 0)], debounce := 50 }
      [] (fun _ _ => some 42) 10).2 = [] ∧
    (sync
      (sync
        { storage :=
            { canonRoot := "/r", cache := [((DepKey.path "/r/a", 0), 0)], deps := [],
              metadata := [(DepKey.path "/r/a", ⟨0, DepKey.path "/r/a", 0⟩)] },
          slots := [1], dirties := [(DepKey.path "/r/a", 0)], debounce := 50 }
        [] (fun _ _ => some 42) 10).1
      [] (fun _ _ => some 42) 60).2 = [(DepKey.path "/r/a", true)] := by decide

/-- C9 (amended): two consecutive sync calls with no new events between them
produce no reload invocations in the second call PROVIDED every dirty entry
retained by the first call is still within the debounce window at the second
call's instant (in particular whenever no time passes between the calls);
without that proviso a retained entry's debounce can elapse between the calls
and the second call reloads it, as the counterexample shows. -/
theorem c9_idempotent_sync_within_debounce (st : Machine)
    (events : List (RawEvent × Nat)) (env env2 : DepKey → Nat → Option Nat)
    (now1 now2 : Nat)
    (h : ∀ e ∈ (sync st events env now1).1.dirties,
       now2 - e.2 < (sync st events env now1).1.debounce) :
    (sync (sync st events env now1).1 [] env2 now2).2 = [] := by
  show (reloadDirties (dequeueFsEvents (sync st events env now1).1 []) env2 now2).2 = []
  have hdq : dequeueFsEvents (sync st events env now1).1 [] = (sync st events env now1).1 :=
    rfl
  rw [hdq]
  unfold reloadDirties
  rw [reloadPass_retain env2 (sync st events env now1).1.debounce now2
    (sync st events env now1).1.storage (sync st events env now1).1.slots
    (sync st events env now1).1.dirties h]

/-- C9 (witness): from a fresh store (no dirty entries) a first sync at
instant 0 and a second at instant 1000 with no events produce no reload
invocations in the second call, by `c9_idempotent_sync_within_debounce`. -/
theorem c9_witness :
    (sync (sync (Machine.init "/r" 50) [] (fun _ _ => some 1) 0).1 []
      (fun _ _ => some 1) 1000).2 = [] :=
  c9_idempotent_sync_within_debounce (Machine.init "/r" 50) [] (fun _ _ => some 1)
    (fun _ _ => some 1) 0 1000
    (fun e he => absurd he (List.not_mem_nil e))

/-- C10: the proxied variants recover from every error of the underlying get
and discard the error value: (i) on a loader error — for any error value e —
the result is exactly the fallback inject of the proxy under the given
(unprepared) key with no dependencies, independent of e; (ii) on a store error
(the loader succeeded but inject hit an already-registered DepKey) the same
fallback runs; in both cases the only error the caller can ever see is the
`StoreError` of the fallback inject itself — the loader's error value is never
returned (the model's result type is `Except StoreError _`, mirroring the
source signature src/src/load.rs 245-259). -/
theorem c10_proxied_discards_errors (st : Machine) (ty : Nat) (key : DepKey)
    (e : Nat) (v : Nat) (ds : List DepKey) (proxy : Nat)
    (hmiss : lookupA st.storage.cache (key.prepare st.storage.canonRoot, ty) = none) :
    getProxied st ty key (.error e) proxy = inject st ty key proxy [] ∧
    (containsA st.storage.metadata (key.prepare st.storage.canonRoot) = true →
      getProxied st ty key (.ok (v, ds)) proxy = inject st ty key proxy []) := by
  constructor
  · simp [getProxied, getBy, hmiss]
  · intro hreg
    simp only [getProxied, getBy, hmiss]
    rw [show inject st ty (key.prepare st.storage.canonRoot) v ds =
        .error (.alreadyRegisteredKey (key.prepare st.storage.canonRoot)) by
      simp [inject, hreg]]

/-- C10 (witness): with the canonical key "/r/a" registered but its (pair,
type) not cached, both a loader error (value 5, discarded) and a loader
success that collides on inject make get_proxied fall back to injecting the
proxy, by `c10_proxied_discards_errors`. -/
theorem c10_witness :
    getProxied
      { storage :=
          { canonRoot := "/r", cache := [], deps := [],
            metadata := [(DepKey.path "/r/a", ⟨0, DepKey.path "/r/a", 0⟩)] },
        slots := [9], dirties := [], debounce := 50 }
      0 (DepKey.path "/a") (.error 5) 7 =
      inject
        { storage :=
            { canonRoot := "/r", cache := [], deps := [],
              metadata := [(DepKey.path "/r/a", ⟨0, DepKey.path "/r/a", 0⟩)] },
          slots := [9], dirties := [], debounce := 50 }
        0 (DepKey.path "/a") 7 [] ∧
    getProxied
      { storage :=
          { canonRoot := "/r", cache := [], deps := [],
            metadata := [(DepKey.path "/r/a", ⟨0, DepKey.path "/r/a", 0⟩)] },
        slots := [9], dirties := [], debounce := 50 }
      0 (DepKey.path "/a") (.ok (4, [])) 7 =
      inject
        { storage :=
            { canonRoot := "/r", cache := [], deps := [],
              metadata := [(DepKey.path "/r/a", ⟨0, DepKey.path "/r/a", 0⟩)] },
          slots := [9], dirties := [], debounce := 50 }
        0 (DepKey.path "/a") 7 [] := by
  obtain ⟨h1, h2⟩ := c10_proxied_discards_errors
    { storage :=
        { canonRoot := "/r", cache := [], deps := [],
          metadata := [(DepKey.path "/r/a", ⟨0, DepKey.path "/r/a", 0⟩)] },
      slots := [9], dirties := [], debounce := 50 }
    0 (DepKey.path "/a") 5 4 [] 7 (by decide)
  exact ⟨h1, h2 (by decide)⟩

end Warmy
